import Mathlib

/-!
Verification development for the PDG-RocketLeagueIRL BLE gateway server.

The Python sources under `src/server` are shallowly embedded below:

* `Car` mirrors `models/car.py` (`Car.__init__`): each field of the Python
  object becomes a Lean field; Python `None` becomes `Option.none`; times
  (`last_seen`) are abstract `Nat` timestamps supplied by the caller.
* The `CarManager` methods of `models/car_manager.py` become pure functions
  over the list of cars held by the manager (the values of the Python
  `cars` dict, in insertion order).  In-place mutation of a car object
  becomes replacement of the corresponding list entry.
* `websocket/handlers.py` (`translate_move_to_drive_params`,
  `handle_move_car`) and `bluetooth/ble_device.py` (`set_drive` and the
  clamped characteristic writers) become pure functions; the BLE writes of
  `set_drive` are represented as the ordered list of (characteristic,
  written value) pairs.
* `bluetooth/ble_service.py` (`start_scan_phase`) becomes a function of
  the pre-state and the list of devices the scan observed; the callback
  invocations of `_notify_phase_callbacks` become the returned event list.
* `models/game_status.py` / `models/game.py` become `Team` / `GameStatus`
  with the `teams` dict embedded as an association list in insertion order.
* The UTF-8 handling of `PDGCarDevice.read_string`
  (`data.decode("utf-8", errors="ignore")`) is embedded as a decoder over
  byte lists producing the list of code points of the decoded text.
-/

/-- Mirror of `Car` from `src/server/models/car.py`.  Field names and
defaults follow `Car.__init__`; `websocket_id` is the owner session id
(`None` = unassigned).  A car has a single `websocket_id` attribute, so it
can hold at most one owner at any time, exactly as in the source. -/
structure Car where
  car_id : Nat
  name : String := "Unknown Car"
  ble_name : Option String := none
  ble_address : Option String := none
  battery_level : Nat := 100
  move : Option String := some "stopped"
  x : Int := 0
  boost : Bool := false
  boost_value : Nat := 100
  connected : Bool := false
  last_seen : Option Nat := none
  websocket_id : Option String := none
  deriving Repr, DecidableEq

/-- `CarManager.get_car`: dictionary lookup by `car_id` (the dict is keyed
by `car_id`, so the first list entry with that id is the entry). -/
def get_car (cars : List Car) (car_id : Nat) : Option Car :=
  cars.find? (fun c => c.car_id == car_id)

/-- Replace the first list entry satisfying `p` by its image under `f`:
the list form of mutating the (unique) dict entry in place. -/
def replaceFirst {α : Type} (p : α → Bool) (f : α → α) : List α → List α
  | [] => []
  | c :: cs => if p c then f c :: cs else c :: replaceFirst p f cs

/-- Result triple of `CarManager.select_car`:
`(success: bool, message: str, car: Car or None)`. -/
structure SelectResult where
  success : Bool
  message : String
  car : Option Car
  deriving Repr, DecidableEq

/-- `CarManager.select_car` from `src/server/models/car_manager.py`
(lines 202-224), returning the result triple and the post-state. -/
def select_car (cars : List Car) (car_id : Nat) (websocket_id : String) :
    SelectResult × List Car :=
  match get_car cars car_id with
  | none =>
      (⟨false, "Car " ++ toString car_id ++ " not found", none⟩, cars)
  | some car =>
      if car.websocket_id.isSome then
        if car.websocket_id = some websocket_id then
          (⟨true, "Car " ++ toString car_id ++ " is already selected by this client",
            some car⟩, cars)
        else
          (⟨false, "Car " ++ toString car_id ++ " is already selected by another client",
            none⟩, cars)
      else
        let car' := { car with websocket_id := some websocket_id }
        (⟨true, "Car " ++ toString car_id ++ " successfully selected", some car'⟩,
          replaceFirst (fun c => c.car_id == car_id)
            (fun c => { c with websocket_id := some websocket_id }) cars)

/-- Result pair of `CarManager.free_car`: `(success: bool, message: str)`. -/
structure FreeResult where
  success : Bool
  message : String
  deriving Repr, DecidableEq

/-- `CarManager.free_car` from `src/server/models/car_manager.py`
(lines 226-249): `websocket_id = none` models the Python default
`websocket_id=None` (no ownership verification). -/
def free_car (cars : List Car) (car_id : Nat) (websocket_id : Option String) :
    FreeResult × List Car :=
  match get_car cars car_id with
  | none =>
      (⟨false, "Car " ++ toString car_id ++ " not found"⟩, cars)
  | some car =>
      if car.websocket_id = none then
        (⟨true, "Car " ++ toString car_id ++ " is already free"⟩, cars)
      else if websocket_id.isSome ∧ car.websocket_id ≠ websocket_id then
        (⟨false, "Car " ++ toString car_id ++ " is not selected by this client"⟩, cars)
      else
        (⟨true, "Car " ++ toString car_id ++ " has been freed"⟩,
          replaceFirst (fun c => c.car_id == car_id)
            (fun c => { c with websocket_id := none }) cars)

/-- `CarManager.free_cars_by_websocket` from
`src/server/models/car_manager.py` (lines 251-266): frees every car owned
by `websocket_id` and returns the freed ids in iteration order, paired
with the post-state. -/
def free_cars_by_websocket (cars : List Car) (websocket_id : String) :
    List Nat × List Car :=
  ((cars.filter (fun c => c.websocket_id == some websocket_id)).map (·.car_id),
    cars.map (fun c =>
      if c.websocket_id == some websocket_id then { c with websocket_id := none } else c))

/-- `CarManager.get_free_cars`: cars with no owner. -/
def get_free_cars (cars : List Car) : List Car :=
  cars.filter (fun c => c.websocket_id == none)

-- Sanity checks on concrete states.
example :
    (select_car [{ car_id := 5 }] 5 "A").1.success = true := by decide
example :
    (select_car (select_car [{ car_id := 5 }] 5 "A").2 5 "B").1.success = false := by
  decide
example :
    (free_cars_by_websocket [{ car_id := 5, websocket_id := some "A" },
      { car_id := 6, websocket_id := some "B" }] "A").1 = [5] := by decide

/-! ## Drive command translation and BLE writes -/

/-- `clamp` from `src/server/bluetooth/ble_device.py`:
`max(lo, min(hi, value))`. -/
def clamp (v lo hi : Int) : Int := max lo (min hi v)

/-- `translate_move_to_drive_params` from `src/server/websocket/handlers.py`
(lines 31-73).  `move` is whatever `data.get("move")` produced (`none` =
Python `None`); the comparisons with the string literals mirror
`move == "forward"` etc.  Returns `(drive_x, drive_y, speed, decay_mode)`. -/
def translate_move_to_drive_params (move : Option String) (x : Int) (boost : Bool) :
    Int × Int × Int × Int :=
  let drive_x := x
  let (drive_y, speed) :=
    if move = some "forward" then ((50 : Int), (50 : Int))
    else if move = some "backward" then (-50, 50)
    else if move = some "stopped" then (0, 0)
    else (0, 0)
  let (speed, decay_mode) := if boost then ((100 : Int), (1 : Int)) else (speed, 0)
  (drive_x, drive_y, speed, decay_mode)

/-- The four motor characteristics, in the fixed order `set_drive` writes
them (`CHAR_DIR_X`, `CHAR_DIR_Y`, `CHAR_DIR_SPEED`, `CHAR_DECAY_MODE`). -/
inductive DriveChar where
  | dirX | dirY | dirSpeed | decayMode
  deriving Repr, DecidableEq

/-- `PDGCarDevice.write_i8`: the value actually written on the wire is
clamped to the `int8_t` range `[-128, 127]`. -/
def write_i8_value (v : Int) : Int := clamp v (-128) 127

/-- `PDGCarDevice.set_drive` from `src/server/bluetooth/ble_device.py`
(lines 404-415): issues `write_x_direction`, `write_y_direction`,
`write_speed_direction`, `write_decay_mode` in that order.  Each writer
first applies its firmware domain clamp and then `write_i8`.  The result
is the ordered list of (characteristic, written byte value) pairs. -/
def set_drive (x y speed decay_mode : Int) : List (DriveChar × Int) :=
  [ (DriveChar.dirX, write_i8_value (clamp x (-100) 100)),
    (DriveChar.dirY, write_i8_value (clamp y (-100) 100)),
    (DriveChar.dirSpeed, write_i8_value (clamp speed 0 100)),
    (DriveChar.decayMode, write_i8_value (clamp decay_mode 0 1)) ]

example :
    (translate_move_to_drive_params (some "forward") (-30) true) = (-30, 50, 100, 1) := by
  decide
example :
    set_drive (-30) 50 100 1 =
      [(DriveChar.dirX, -30), (DriveChar.dirY, 50),
       (DriveChar.dirSpeed, 100), (DriveChar.decayMode, 1)] := by decide

/-! ## Scan/control phase machine -/

/-- The two values of `BLEService.current_phase`. -/
inductive Phase where
  | scan | control
  deriving Repr, DecidableEq

/-- The observable state of `BLEService` that `start_scan_phase` touches:
the current phase and the registered phase callbacks (represented by
opaque listener identifiers, one per entry of `phase_callbacks`). -/
structure BLEServiceState where
  current_phase : Phase
  phase_callbacks : List Nat
  deriving Repr, DecidableEq

/-- One delivered phase notification: `_notify_phase_callbacks` invokes
`callback(new_phase, discovered_cars)` on every registered callback. -/
structure PhaseEvent where
  listener : Nat
  phase : Phase
  cars : List String
  deriving Repr, DecidableEq

/-- `BLEService.start_scan_phase` from `src/server/bluetooth/ble_service.py`
(lines 151-171).  The BLE scan itself is I/O; its outcome is the
`discovered` parameter (the adresses the 10 s `discover_cars` window saw,
`[]` also covering the exception path of `discover_cars`).  Sets the phase
to scan, then, when cars were discovered, switches to control and notifies
all callbacks with `("control", discovered_cars)`; otherwise stays in scan
and notifies with `("scan", [])`. -/
def start_scan_phase (s : BLEServiceState) (discovered : List String) :
    BLEServiceState × List PhaseEvent :=
  let s1 : BLEServiceState := { s with current_phase := Phase.scan }
  if discovered.isEmpty then
    (s1, s1.phase_callbacks.map (fun l => ⟨l, Phase.scan, []⟩))
  else
    ({ s1 with current_phase := Phase.control },
      s1.phase_callbacks.map (fun l => ⟨l, Phase.control, discovered⟩))

/-! ## Car-id derivation from the BLE name -/

/-- Is `pat` a contiguous substring of `l`?  This is the Python
`pat in s` test, written over the character list. -/
def containsSub (pat l : List Char) : Bool :=
  match l with
  | [] => pat.isEmpty
  | _ :: tl => pat.isPrefixOf l || containsSub pat tl

/-- Left-to-right scan behind `removeAllSub`: while `skip > 0` the current
character belongs to an already-matched occurrence and is discarded;
at `skip = 0` a match of `pat` starts discarding the next `pat.length`
characters, any other character is kept. -/
def removeAllSubAux (pat : List Char) (skip : Nat) : List Char → List Char
  | [] => []
  | c :: tl =>
      match skip with
      | skip' + 1 => removeAllSubAux pat skip' tl
      | 0 =>
          if pat.isPrefixOf (c :: tl) ∧ pat ≠ [] then
            removeAllSubAux pat (pat.length - 1) tl
          else c :: removeAllSubAux pat 0 tl

/-- Python `s.replace(pat, "")` for a nonempty pattern: removes every
non-overlapping occurrence of `pat`, scanning left to right. -/
def removeAllSub (pat l : List Char) : List Char :=
  removeAllSubAux pat 0 l

/-- Value of a hex digit, `none` for any other character (both cases
accepted by Python `int(_, 16)`). -/
def hexDigitVal (c : Char) : Option Nat :=
  if '0' ≤ c ∧ c ≤ '9' then some (c.toNat - '0'.toNat)
  else if 'a' ≤ c ∧ c ≤ 'f' then some (c.toNat - 'a'.toNat + 10)
  else if 'A' ≤ c ∧ c ≤ 'F' then some (c.toNat - 'A'.toNat + 10)
  else none

/-- `int(s, 16)` restricted to the plain hex-digit case: succeeds iff `s`
is nonempty and all characters are hex digits (Python additionally accepts
an optional sign, surrounding whitespace, a `0x` prefix and infix
underscores; none of these occur in a 4-character MAC slice, and any
string rejected here for one of these reasons is outside every statement
below). -/
def parseHexDigits (l : List Char) : Option Nat :=
  match l with
  | [] => none
  | _ =>
      l.foldl (fun acc c =>
        match acc, hexDigitVal c with
        | some n, some d => some (n * 16 + d)
        | _, _ => none) (some 0)

/-- The marker string `"RL-CAR-"` as a character list. -/
def rlCarPrefix : List Char := ['R', 'L', '-', 'C', 'A', 'R', '-']

/-- `CarManager._generate_car_id_from_ble_name` from
`src/server/models/car_manager.py` (lines 165-185).  `hash` abstracts the
Python builtin `hash` (fixed for the lifetime of one process); the
fallback is `abs(hash(ble_name)) % 10000`. -/
def generate_car_id_from_ble_name (hash : List Char → Nat) (ble_name : List Char) : Nat :=
  if containsSub rlCarPrefix ble_name then
    let mac_part := (removeAllSub rlCarPrefix ble_name).filter (fun c => c ≠ ':')
    match parseHexDigits (mac_part.drop (mac_part.length - 4)) with
    | some v => v
    | none => hash ble_name % 10000
  else hash ble_name % 10000

example :
    generate_car_id_from_ble_name (fun _ => 0)
      "RL-CAR-cc:ba:97:0d:8c:b5".data = 36021 := by decide

/-- `CarManager._extract_car_name_from_ble_name` from
`src/server/models/car_manager.py` (lines 187-200). -/
def extract_car_name_from_ble_name (ble_name : List Char) : String :=
  if containsSub rlCarPrefix ble_name then
    let mac_part := removeAllSub rlCarPrefix ble_name
    "Rocket League Car (" ++ String.mk (mac_part.drop (mac_part.length - 8)) ++ ")"
  else
    "Unknown Car (" ++ String.mk ble_name ++ ")"

/-- `CarManager.add_car`: `self.cars[car.car_id] = car` — replace the
entry with that key if present, else append at the end (dict insertion
order). -/
def add_car (cars : List Car) (car : Car) : List Car :=
  if cars.any (fun c => c.car_id == car.car_id) then
    replaceFirst (fun c => c.car_id == car.car_id) (fun _ => car) cars
  else cars ++ [car]

/-- `CarManager.add_or_update_car_from_ble` from
`src/server/models/car_manager.py` (lines 126-163).  `hash` abstracts the
Python builtin `hash` used by the id-derivation fallback; `now` is the
`datetime.now()` timestamp.  Returns the car (new or updated) and the
post-state.  The existing car is looked up first by `ble_name`, then by
`ble_address`, exactly as `get_car_by_ble_name(...) or
get_car_by_ble_address(...)`; mutating the found object in place becomes
replacing that list entry. -/
def add_or_update_car_from_ble (hash : List Char → Nat) (cars : List Car)
    (ble_name ble_address : String) (now : Nat) : Car × List Car :=
  let upd : Car → Car := fun c =>
    { c with ble_name := some ble_name, ble_address := some ble_address,
             last_seen := some now }
  match cars.find? (fun c => c.ble_name == some ble_name) with
  | some car =>
      (upd car, replaceFirst (fun c => c.ble_name == some ble_name) upd cars)
  | none =>
      match cars.find? (fun c => c.ble_address == some ble_address) with
      | some car =>
          (upd car, replaceFirst (fun c => c.ble_address == some ble_address) upd cars)
      | none =>
          let new_car : Car :=
            { car_id := generate_car_id_from_ble_name hash ble_name.data,
              name := extract_car_name_from_ble_name ble_name.data,
              ble_name := some ble_name,
              ble_address := some ble_address,
              last_seen := some now }
          (new_car, add_car cars new_car)

/-! ## The `move_car` handler -/

/-- The value `data.get("boost", "false")` can be a JSON string or a JSON
boolean; `handle_move_car` converts it with
`boost.lower() == "true" if isinstance(boost, str) else bool(boost)`. -/
inductive BoostVal where
  | bstr (s : String)
  | bbool (b : Bool)
  deriving Repr, DecidableEq

/-- The boost conversion performed inside `handle_move_car`. -/
def boostToBool : BoostVal → Bool
  | BoostVal.bstr s => s.toLower == "true"
  | BoostVal.bbool b => b

/-- Python `str(x)` for the optional car id appearing in reply messages. -/
def pyStrOptNat : Option Nat → String
  | none => "None"
  | some n => toString n

/-- The JSON reply object built by `handle_move_car`; keys that a branch
does not put into its dict are `none`. -/
structure MoveReply where
  status : String
  action : Option String := some "move_car"
  message : String
  car_status : Option Car := none
  bluetooth_command_sent : Option Bool := none
  deriving Repr, DecidableEq

/-- A scheduled fire-and-forget BLE drive task: the closure
`send_bluetooth_command` captures the car object and the
`(move, x, boost_bool)` arguments it will forward to
`send_drive_command_to_car`. -/
structure DriveTask where
  car : Car
  move : Option String
  x : Int
  boost : Bool
  deriving Repr, DecidableEq

/-- `handle_move_car` from `src/server/websocket/handlers.py`
(lines 158-247), with the car manager available (the deployed
configuration — `websocket.py` always sets one).  `loopAvailable` models
whether `asyncio.get_event_loop()` succeeds; the scheduled task list
models `loop.create_task(send_bluetooth_command())`.  The claim framework
concerns integral `x`, for which `int(x)` succeeds, so `x : Int`.
Returns (reply, post-state cars, scheduled BLE tasks). -/
def handle_move_car (loopAvailable : Bool) (cars : List Car)
    (websocket_id : Option String) (car_id : Option Nat) (move : Option String)
    (x : Int) (boost : BoostVal) : MoveReply × List Car × List DriveTask :=
  if x < -100 ∨ 100 < x then
    ({ status := "error",
       message := "Invalid x parameter: " ++ toString x ++
         ". Must be between -100 and 100" }, cars, [])
  else
    match car_id with
    | none =>
        ({ status := "success",
           message := "Car " ++ pyStrOptNat car_id ++ " command received" }, cars, [])
    | some cid =>
        match get_car cars cid with
        | none =>
            ({ status := "error",
               message := "Car " ++ toString cid ++ " not found" }, cars, [])
        | some car =>
            if websocket_id.isSome ∧ car.websocket_id.isSome ∧
                car.websocket_id ≠ websocket_id then
              ({ status := "error",
                 message := "Car " ++ toString cid ++
                   " is controlled by another client. Select the car first." },
                cars, [])
            else
              let boost_bool := boostToBool boost
              let car' : Car := { car with move := move, x := x, boost := boost_bool }
              let cars' := replaceFirst (fun c => c.car_id == cid)
                (fun c => { c with move := move, x := x, boost := boost_bool }) cars
              ({ status := "success",
                 message := "Car " ++ toString cid ++ " command received and executed" ++
                   (if loopAvailable then " and Bluetooth drive command initiated" else ""),
                 car_status := some car',
                 bluetooth_command_sent := some loopAvailable },
                cars',
                if loopAvailable then [⟨car', move, x, boost_bool⟩] else [])

/-! ## UTF-8 decode with `errors="ignore"` -/

/-- Streaming strict UTF-8 decoder with the `ignore` error handler, over
bytes (`Nat < 256`) producing the code points of the decoded text.

State: `need` = continuation bytes still expected (0 = at a sequence
start), `acc` = accumulated code-point bits, `lo`/`hi` = admissible range
of the next continuation byte (the range differs after `E0`/`ED`/`F0`/`F4`
exactly as in strict UTF-8, which is what CPython implements: overlong
encodings and surrogates are malformed).  A malformed byte at a sequence
start is dropped; a malformed continuation byte aborts the current
sequence (dropping its bytes) and is reconsidered as a start byte, which
is CPython's resume point for `errors="ignore"`.  A truncated sequence at
the end of input is dropped. -/
def decodeUtf8IgnoreAux : Nat → Nat → Nat → Nat → List Nat → List Nat
  | _, _, _, _, [] => []
  | 0, _, _, _, b :: tl =>
      if b < 0x80 then b :: decodeUtf8IgnoreAux 0 0 0 0 tl
      else if b < 0xC2 then decodeUtf8IgnoreAux 0 0 0 0 tl
      else if b ≤ 0xDF then decodeUtf8IgnoreAux 1 (b - 0xC0) 0x80 0xBF tl
      else if b = 0xE0 then decodeUtf8IgnoreAux 2 0 0xA0 0xBF tl
      else if b = 0xED then decodeUtf8IgnoreAux 2 13 0x80 0x9F tl
      else if b ≤ 0xEF then decodeUtf8IgnoreAux 2 (b - 0xE0) 0x80 0xBF tl
      else if b = 0xF0 then decodeUtf8IgnoreAux 3 0 0x90 0xBF tl
      else if b ≤ 0xF3 then decodeUtf8IgnoreAux 3 (b - 0xF0) 0x80 0xBF tl
      else if b = 0xF4 then decodeUtf8IgnoreAux 3 4 0x80 0x8F tl
      else decodeUtf8IgnoreAux 0 0 0 0 tl
  | need + 1, acc, lo, hi, b :: tl =>
      if lo ≤ b ∧ b ≤ hi then
        if need = 0 then
          (acc * 64 + (b - 0x80)) :: decodeUtf8IgnoreAux 0 0 0 0 tl
        else decodeUtf8IgnoreAux need (acc * 64 + (b - 0x80)) 0x80 0xBF tl
      else decodeUtf8IgnoreAux 0 0 0 0 (b :: tl)
  termination_by need _ _ _ l => (l.length, need)

/-- `PDGCarDevice.read_string` from `src/server/bluetooth/ble_device.py`
(lines 242-249): the decode step `data.decode("utf-8", errors="ignore")`,
from the raw characteristic bytes to the code points of the returned
text. -/
def read_string_decode (data : List Nat) : List Nat :=
  decodeUtf8IgnoreAux 0 0 0 0 data

/-- UTF-8 encoding of one Unicode scalar value (what Python produced the
characteristic bytes from, for the valid-input direction). -/
def encodeUtf8Cp (n : Nat) : List Nat :=
  if n < 0x80 then [n]
  else if n < 0x800 then [0xC0 + n / 64, 0x80 + n % 64]
  else if n < 0x10000 then
    [0xE0 + n / 4096, 0x80 + n / 64 % 64, 0x80 + n % 64]
  else
    [0xF0 + n / 262144, 0x80 + n / 4096 % 64, 0x80 + n / 64 % 64, 0x80 + n % 64]

/-- A Unicode scalar value: a code point that is not a surrogate. -/
def ValidScalar (n : Nat) : Prop :=
  n < 0x110000 ∧ ¬(0xD800 ≤ n ∧ n ≤ 0xDFFF)

/-! ## Game state: teams and car membership -/

/-- Mirror of `Team` from `src/server/models/game.py`. -/
structure Team where
  color : String
  name : String
  car_ids : List Nat := []
  score : Nat := 0
  deriving Repr, DecidableEq

/-- `Team.__init__`: `name = name or color.capitalize()`. -/
def mkTeam (color : String) (name : Option String) : Team :=
  { color := color, name := name.getD color.capitalize }

/-- `Team.add_car`: append unless already a member. -/
def Team.addCar (t : Team) (car_id : Nat) : Team :=
  if car_id ∈ t.car_ids then t else { t with car_ids := t.car_ids ++ [car_id] }

/-- `Team.remove_car`: remove the first occurrence if a member
(`list.remove`). -/
def Team.removeCar (t : Team) (car_id : Nat) : Team :=
  { t with car_ids := t.car_ids.erase car_id }

/-- The `teams` dict of `GameStatus`, keyed by color, in insertion
order. -/
def Teams : Type := List (String × Team)

/-- Python dict assignment `teams[color] = team`: replace the entry with
that key if present, else append. -/
def dictSetTeam (teams : List (String × Team)) (color : String) (team : Team) :
    List (String × Team) :=
  if teams.any (fun kt => kt.1 == color) then
    replaceFirst (fun kt => kt.1 == color) (fun _ => (color, team)) teams
  else teams ++ [(color, team)]

/-- `GameStatus.add_team` (`src/server/models/game_status.py` lines
34-47), restricted to the `teams` field it touches. -/
def add_team (teams : List (String × Team)) (color : String) (name : Option String) :
    List (String × Team) :=
  dictSetTeam teams color (mkTeam color name)

/-- `GameStatus.get_team`: dict lookup by color. -/
def get_team (teams : List (String × Team)) (color : String) : Option Team :=
  (teams.find? (fun kt => kt.1 == color)).map (·.2)

/-- `GameStatus.add_car_to_team` from `src/server/models/game_status.py`
(lines 53-73): if the team exists, first remove the car from every team
whose `color` attribute differs, then add it to the target team. -/
def add_car_to_team (teams : List (String × Team)) (car_id : Nat) (team_color : String) :
    List (String × Team) :=
  match get_team teams team_color with
  | none => teams
  | some _ =>
      let removed := teams.map (fun kt =>
        if kt.2.color ≠ team_color then (kt.1, kt.2.removeCar car_id) else kt)
      replaceFirst (fun kt => kt.1 == team_color)
        (fun kt => (kt.1, kt.2.addCar car_id)) removed

/-- `GameStatus.remove_car_from_teams` from
`src/server/models/game_status.py` (lines 75-78). -/
def remove_car_from_teams (teams : List (String × Team)) (car_id : Nat) :
    List (String × Team) :=
  teams.map (fun kt => (kt.1, kt.2.removeCar car_id))

/-- The team-membership operations of claim C10. -/
inductive GameOp where
  | addTeam (color : String) (name : Option String)
  | addCarToTeam (car_id : Nat) (team_color : String)
  | removeCarFromTeams (car_id : Nat)
  deriving Repr, DecidableEq

/-- One step of the team-membership operations on the `teams` dict. -/
def gameStep (teams : List (String × Team)) : GameOp → List (String × Team)
  | GameOp.addTeam color name => add_team teams color name
  | GameOp.addCarToTeam car_id color => add_car_to_team teams car_id color
  | GameOp.removeCarFromTeams car_id => remove_car_from_teams teams car_id

/-- The `teams` dict right after `GameStatus.__init__`: the default red
and blue teams. -/
def initTeams : List (String × Team) :=
  add_team (add_team [] "red" none) "blue" none

/-- Running a sequence of team-membership operations from the initial
game state. -/
def runGameOps (ops : List GameOp) : List (String × Team) :=
  ops.foldl gameStep initTeams

example :
    get_team (runGameOps [GameOp.addCarToTeam 7 "red", GameOp.addCarToTeam 7 "blue"])
      "red" = some { color := "red", name := "Red", car_ids := [] } := by decide
example :
    get_team (runGameOps [GameOp.addCarToTeam 7 "red", GameOp.addCarToTeam 7 "blue"])
      "blue" = some { color := "blue", name := "Blue", car_ids := [7] } := by decide

/-- Well-formedness of the `teams` dict, as `GameStatus` maintains it:
every team's `color` attribute equals its dict key and its car list has
no duplicates; keys are pairwise distinct; and the car lists are pairwise
disjoint (each car belongs to at most one team). -/
def TeamsWF (teams : List (String × Team)) : Prop :=
  (∀ kt ∈ teams, kt.2.color = kt.1 ∧ kt.2.car_ids.Nodup) ∧
  teams.Pairwise (fun a b =>
    a.1 ≠ b.1 ∧ ∀ cid, cid ∈ a.2.car_ids → cid ∉ b.2.car_ids)

/-! ## Registry operations as a transition system (for the ownership
invariant) -/

/-- The registry operations that touch ownership: `select_car`,
`free_car` (with its optional verification argument) and
`free_cars_by_websocket` (run on session end by
`cleanup_websocket_connection`). -/
inductive RegOp where
  | sel (cid : Nat) (ws : String)
  | fre (cid : Nat) (ws : Option String)
  | freAll (ws : String)
  deriving Repr, DecidableEq

/-- The state transition each registry operation performs on the car
list. -/
def regStep (cars : List Car) : RegOp → List Car
  | RegOp.sel cid ws => (select_car cars cid ws).2
  | RegOp.fre cid ws => (free_car cars cid ws).2
  | RegOp.freAll ws => (free_cars_by_websocket cars ws).2

/-! ## Helper lemmas -/

theorem replaceFirst_length {α : Type} (p : α → Bool) (f : α → α) (l : List α) :
    (replaceFirst p f l).length = l.length := by
  induction l with
  | nil => rfl
  | cons c cs ih =>
      simp only [replaceFirst]
      split <;> simp [ih]

/-- `replaceFirst` relates the old and new lists pointwise: every entry is
unchanged, except possibly the first entry satisfying `p` (which is the
`find?` result), which is replaced by its image under `f`. -/
theorem forall2_replaceFirst {α : Type} (p : α → Bool) (f : α → α) (l : List α) :
    List.Forall₂ (fun c c' => c' = c ∨ (p c ∧ c' = f c ∧ l.find? p = some c))
      l (replaceFirst p f l) := by
  induction l with
  | nil => exact List.Forall₂.nil
  | cons c cs ih =>
      by_cases hp : p c
      · simp only [replaceFirst, hp, if_pos]
        refine List.Forall₂.cons (Or.inr ⟨hp, rfl, ?_⟩) ?_
        · simp [List.find?, hp]
        · exact (List.forall₂_same).2 (fun x _ => Or.inl rfl)
      · simp only [replaceFirst, hp, if_neg, Bool.false_eq_true, not_false_iff]
        refine List.Forall₂.cons (Or.inl rfl) (ih.imp ?_)
        intro a b hab
        rcases hab with h | ⟨h1, h2, h3⟩
        · exact Or.inl h
        · refine Or.inr ⟨h1, h2, ?_⟩
          simpa [List.find?, hp] using h3

/-- Pointwise relation between a list and its `map` image. -/
theorem forall2_map_self {α : Type} (R : α → α → Prop) (g : α → α) (l : List α)
    (h : ∀ x ∈ l, R x (g x)) : List.Forall₂ R l (l.map g) := by
  induction l with
  | nil => exact List.Forall₂.nil
  | cons c cs ih =>
      exact List.Forall₂.cons (h c (by simp))
        (ih (fun x hx => h x (by simp [hx])))

/-- Looking up the key just rewritten by `replaceFirst` (when `f`
preserves the key). -/
theorem get_car_replaceFirst (cars : List Car) (cid : Nat) (f : Car → Car)
    (hf : ∀ c, (f c).car_id = c.car_id) :
    get_car (replaceFirst (fun c => c.car_id == cid) f cars) cid =
      (get_car cars cid).map f := by
  induction cars with
  | nil => rfl
  | cons c cs ih =>
      by_cases hp : c.car_id == cid
      · simp only [replaceFirst, hp, if_pos, get_car, List.find?]
        have : (f c).car_id == cid := by
          rw [hf c]; exact hp
        simp [this, hp]
      · simp only [replaceFirst, hp, if_neg, Bool.false_eq_true, not_false_iff]
        simp only [get_car, List.find?, hp] at ih ⊢
        exact ih

/-! ## Claim theorems -/

/-- C3. Release on session end: `free_cars_by_websocket S` leaves no car
with owner `S`, sets exactly the cars previously owned by `S` to
Unassigned (leaving every other car unchanged), and returns the list of
their car ids. -/
theorem release_on_session_end (cars : List Car) (S : String) :
    (∀ c' ∈ (free_cars_by_websocket cars S).2, c'.websocket_id ≠ some S) ∧
    List.Forall₂ (fun c c' =>
        (c.websocket_id = some S → c' = { c with websocket_id := none }) ∧
        (c.websocket_id ≠ some S → c' = c))
      cars (free_cars_by_websocket cars S).2 ∧
    (free_cars_by_websocket cars S).1 =
      (cars.filter (fun c => c.websocket_id = some S)).map (·.car_id) := by
  refine ⟨?_, ?_, ?_⟩
  · intro c' hc'
    simp only [free_cars_by_websocket, List.mem_map] at hc'
    obtain ⟨c, _, rfl⟩ := hc'
    by_cases h : c.websocket_id = some S
    · simp [h]
    · simp [h]
  · refine forall2_map_self _ _ _ ?_
    intro c _
    by_cases h : c.websocket_id = some S
    · refine ⟨fun _ => ?_, fun hc => absurd h hc⟩
      simp [h]
    · refine ⟨fun hc => absurd hc h, fun _ => ?_⟩
      simp [h]
  · simp only [free_cars_by_websocket]
    congr 1
    apply List.filter_congr
    intro c _
    by_cases h : c.websocket_id = some S <;> simp [h]

/-- C9. Rediscovery frame: when an advertisement matches a car already in
the registry (by `ble_name` or `ble_address`), `add_or_update_car_from_ble`
adds no car (length unchanged) and updates only `ble_name`, `ble_address`
and `last_seen`: every car keeps its `car_id`, owner (`websocket_id`) and
cached telemetry (`battery_level`, `move`, `x`, `boost`, `boost_value`,
`connected`). -/
theorem rediscovery_frame (hash : List Char → Nat) (cars : List Car)
    (name addr : String) (now : Nat)
    (h : (∃ c ∈ cars, c.ble_name = some name) ∨ (∃ c ∈ cars, c.ble_address = some addr)) :
    (add_or_update_car_from_ble hash cars name addr now).2.length = cars.length ∧
    List.Forall₂ (fun c c' =>
        c'.car_id = c.car_id ∧ c'.websocket_id = c.websocket_id ∧
        c'.battery_level = c.battery_level ∧ c'.move = c.move ∧ c'.x = c.x ∧
        c'.boost = c.boost ∧ c'.boost_value = c.boost_value ∧
        c'.connected = c.connected)
      cars (add_or_update_car_from_ble hash cars name addr now).2 := by
  have frame : ∀ (p : Car → Bool) (upd : Car → Car),
      (∀ c, (upd c).car_id = c.car_id ∧ (upd c).websocket_id = c.websocket_id ∧
        (upd c).battery_level = c.battery_level ∧ (upd c).move = c.move ∧
        (upd c).x = c.x ∧ (upd c).boost = c.boost ∧
        (upd c).boost_value = c.boost_value ∧ (upd c).connected = c.connected) →
      (replaceFirst p upd cars).length = cars.length ∧
      List.Forall₂ (fun c c' =>
          c'.car_id = c.car_id ∧ c'.websocket_id = c.websocket_id ∧
          c'.battery_level = c.battery_level ∧ c'.move = c.move ∧ c'.x = c.x ∧
          c'.boost = c.boost ∧ c'.boost_value = c.boost_value ∧
          c'.connected = c.connected)
        cars (replaceFirst p upd cars) := by
    intro p upd hupd
    refine ⟨replaceFirst_length p upd cars, (forall2_replaceFirst p upd cars).imp ?_⟩
    intro a b hab
    rcases hab with rfl | ⟨_, rfl, _⟩
    · exact ⟨rfl, rfl, rfl, rfl, rfl, rfl, rfl, rfl⟩
    · exact hupd a
  rcases hname : cars.find? (fun c => c.ble_name == some name) with _ | car
  · have haddr : (cars.find? (fun c => c.ble_address == some addr)).isSome := by
      rcases h with ⟨c, hc, hcn⟩ | ⟨c, hc, hca⟩
      · exfalso
        have := List.find?_eq_none.1 hname c hc
        simp [hcn] at this
      · exact List.find?_isSome.2 ⟨c, hc, by simp [hca]⟩
    rcases haddr' : cars.find? (fun c => c.ble_address == some addr) with _ | car
    · rw [haddr'] at haddr; simp at haddr
    · simp only [add_or_update_car_from_ble, hname, haddr']
      exact frame _ _ (fun c => by simp)
  · simp only [add_or_update_car_from_ble, hname]
    exact frame _ _ (fun c => by simp)

/-- C7. Idempotence of select and free: running `select_car(c, S)` twice
yields the same final registry state, success flag and returned car as
running it once (selecting a car the caller already owns succeeds), and
running `free_car(c)` twice yields the same final state and success flag
as running it once (freeing an already-free car succeeds and leaves the
state unchanged). -/
theorem select_free_idempotent (cars : List Car) (cid : Nat) (S : String)
    (w : Option String) :
    ((select_car (select_car cars cid S).2 cid S).2 = (select_car cars cid S).2 ∧
     (select_car (select_car cars cid S).2 cid S).1.success =
       (select_car cars cid S).1.success ∧
     (select_car (select_car cars cid S).2 cid S).1.car =
       (select_car cars cid S).1.car) ∧
    (∀ car, get_car cars cid = some car → car.websocket_id = some S →
      (select_car cars cid S).1.success = true ∧ (select_car cars cid S).2 = cars) ∧
    ((free_car (free_car cars cid w).2 cid w).2 = (free_car cars cid w).2 ∧
     (free_car (free_car cars cid w).2 cid w).1.success =
       (free_car cars cid w).1.success) ∧
    (∀ car, get_car cars cid = some car → car.websocket_id = none →
      (free_car cars cid w).1.success = true ∧ (free_car cars cid w).2 = cars) := by
  refine ⟨?_, ?_, ?_, ?_⟩
  · rcases hg : get_car cars cid with _ | car
    · simp [select_car, hg]
    · rcases hw : car.websocket_id with _ | w'
      · have hg2 : get_car (replaceFirst (fun c => c.car_id == cid)
              (fun c => { c with websocket_id := some S }) cars) cid =
            some { car with websocket_id := some S } := by
          rw [get_car_replaceFirst cars cid
            (fun c => { c with websocket_id := some S }) (fun c => rfl), hg]
          rfl
        simp [select_car, hg, hw, hg2]
      · by_cases hsw : w' = S
        · simp [select_car, hg, hw, hsw]
        · have : ¬(some w' = some S) := by simp [hsw]
          simp [select_car, hg, hw, this]
  · intro car hg hw
    simp [select_car, hg, hw]
  · rcases hg : get_car cars cid with _ | car
    · simp [free_car, hg]
    · rcases hw : car.websocket_id with _ | w'
      · simp [free_car, hg, hw]
      · by_cases hv : w.isSome ∧ some w' ≠ w
        · simp [free_car, hg, hw, hv]
        · have hg2 : get_car (replaceFirst (fun c => c.car_id == cid)
                (fun c => { c with websocket_id := none }) cars) cid =
              some { car with websocket_id := none } := by
            rw [get_car_replaceFirst cars cid
              (fun c => { c with websocket_id := none }) (fun c => rfl), hg]
            rfl
          simp [free_car, hg, hw, hv, hg2]
  · intro car hg hw
    simp [free_car, hg, hw]

/-- Witness for C9 at a concrete registry: a rediscovery of the car named
`N` does not change the number of registered cars. -/
theorem rediscovery_frame_witness :
    (add_or_update_car_from_ble (fun _ => 0)
        [{ car_id := 1, ble_name := some "N", ble_address := some "A",
           websocket_id := some "S" }] "N" "A2" 5).2.length =
      ([{ car_id := 1, ble_name := some "N", ble_address := some "A",
          websocket_id := some "S" }] : List Car).length :=
  (rediscovery_frame (fun _ => 0)
    [{ car_id := 1, ble_name := some "N", ble_address := some "A",
       websocket_id := some "S" }] "N" "A2" 5
    (Or.inl ⟨⟨1, "Unknown Car", some "N", some "A", 100, some "stopped", 0,
      false, 100, false, none, some "S"⟩, by decide, by decide⟩)).1

/-- Witness for C7 at a concrete registry: re-selecting a car the session
already owns succeeds and leaves the state unchanged. -/
theorem select_free_idempotent_witness :
    (select_car [{ car_id := 3, websocket_id := some "A" }] 3 "A").1.success = true ∧
    (select_car [{ car_id := 3, websocket_id := some "A" }] 3 "A").2 =
      [{ car_id := 3, websocket_id := some "A" }] :=
  (select_free_idempotent [{ car_id := 3, websocket_id := some "A" }] 3 "A" none).2.1
    { car_id := 3, websocket_id := some "A" } (by decide) (by decide)

/-- C1. Exclusive ownership: a car's owner is the single optional field
`websocket_id`, so at most one session holds a car at any point.  Across
every registry operation, each car's owner either stays, is cleared
(`free`/session end), or goes from Unassigned to the selecting session;
there is never a direct transfer from one session to another.  Moreover
`select_car` on a car owned by a different session fails (Busy) and
leaves the registry unchanged. -/
theorem exclusive_ownership (cars : List Car) (op : RegOp) :
    List.Forall₂ (fun c c' =>
        c'.car_id = c.car_id ∧
        (c'.websocket_id = c.websocket_id ∨
          ((∃ w, op = RegOp.fre c.car_id w) ∧ c'.websocket_id = none) ∨
          (∃ S, op = RegOp.freAll S ∧ c.websocket_id = some S ∧
            c'.websocket_id = none) ∨
          (∃ S, op = RegOp.sel c.car_id S ∧ c.websocket_id = none ∧
            c'.websocket_id = some S)))
      cars (regStep cars op) ∧
    (∀ cid S S' car, get_car cars cid = some car → car.websocket_id = some S' →
      S' ≠ S →
      (select_car cars cid S).1.success = false ∧ (select_car cars cid S).2 = cars) := by
  constructor
  · have refl2 : List.Forall₂ (fun c c' =>
        c'.car_id = c.car_id ∧
        (c'.websocket_id = c.websocket_id ∨
          ((∃ w, op = RegOp.fre c.car_id w) ∧ c'.websocket_id = none) ∨
          (∃ S, op = RegOp.freAll S ∧ c.websocket_id = some S ∧
            c'.websocket_id = none) ∨
          (∃ S, op = RegOp.sel c.car_id S ∧ c.websocket_id = none ∧
            c'.websocket_id = some S)))
        cars cars :=
      (List.forall₂_same).2 (fun x _ => ⟨rfl, Or.inl rfl⟩)
    cases op with
    | sel cid S =>
        rcases hg : get_car cars cid with _ | car
        · simp only [regStep, select_car, hg]
          exact refl2
        · rcases hw : car.websocket_id with _ | w'
          · simp only [regStep, select_car, hg, hw, Option.isSome_none,
              Bool.false_eq_true, if_false]
            refine (forall2_replaceFirst _ _ _).imp ?_
            intro a b hab
            rcases hab with rfl | ⟨hpa, rfl, hfind⟩
            · exact ⟨rfl, Or.inl rfl⟩
            · have hacar : a = car := by
                have hgf : cars.find? (fun c => c.car_id == cid) = some car := hg
                rw [hgf] at hfind
                exact (Option.some_injective _ hfind.symm)
              refine ⟨rfl, Or.inr (Or.inr (Or.inr ⟨S, ?_, by rw [hacar, hw], rfl⟩))⟩
              have hpa' : a.car_id = cid := by simpa using hpa
              rw [hpa']
          · by_cases hws : w' = S
            · subst hws
              simp only [regStep, select_car, hg, hw]
              rw [if_pos (by simp)]
              simp only [if_true]
              exact refl2
            · have hne : ¬(some w' = some S) := by simp [hws]
              simp only [regStep, select_car, hg, hw]
              rw [if_pos (by simp), if_neg hne]
              exact refl2
    | fre cid w =>
        rcases hg : get_car cars cid with _ | car
        · simp only [regStep, free_car, hg]
          exact refl2
        · by_cases hfree : car.websocket_id = none
          · simp only [regStep, free_car, hg, if_pos hfree]
            exact refl2
          · by_cases hv : w.isSome ∧ car.websocket_id ≠ w
            · simp only [regStep, free_car, hg, if_neg hfree, if_pos hv]
              exact refl2
            · simp only [regStep, free_car, hg, if_neg hfree, if_neg hv]
              refine ((forall2_replaceFirst _ _ _).imp ?_)
              intro a b hab
              rcases hab with rfl | ⟨hpa, rfl, _⟩
              · exact ⟨rfl, Or.inl rfl⟩
              · refine ⟨rfl, Or.inr (Or.inl ⟨⟨w, ?_⟩, rfl⟩)⟩
                have hpa' : a.car_id = cid := by simpa using hpa
                rw [hpa']
    | freAll w =>
        simp only [regStep, free_cars_by_websocket]
        refine forall2_map_self _ _ _ ?_
        intro c _
        by_cases h : c.websocket_id = some w
        · refine ⟨by simp [h], Or.inr (Or.inr (Or.inl ⟨w, rfl, h, by simp [h]⟩))⟩
        · refine ⟨by simp [h], Or.inl (by simp [h])⟩
  · intro cid S S' car hg hw hne
    have : ¬(some S' = some S) := by simp [hne]
    constructor
    · simp [select_car, hg, hw, this]
    · simp [select_car, hg, hw, this]

/-- Witness for C1 at a concrete registry: selecting car 1 (owned by
session A) for session B fails and changes nothing. -/
theorem exclusive_ownership_witness :
    (select_car [{ car_id := 1, websocket_id := some "A" }] 1 "B").1.success = false ∧
    (select_car [{ car_id := 1, websocket_id := some "A" }] 1 "B").2 =
      [{ car_id := 1, websocket_id := some "A" }] :=
  (exclusive_ownership [{ car_id := 1, websocket_id := some "A" }]
    (RegOp.sel 1 "B")).2 1 "B" "A" { car_id := 1, websocket_id := some "A" }
    (by decide) (by decide) (by decide)

/-- C5. Scan-phase transition: after `start_scan_phase` completes, the
phase is Control iff at least one car was seen during the scan window
(otherwise it remains Scan), and the corresponding phase notification
(with the discovered cars) is delivered to every registered phase
listener. -/
theorem scan_phase_transition (s : BLEServiceState) (discovered : List String) :
    ((start_scan_phase s discovered).1.current_phase = Phase.control ↔
      discovered ≠ []) ∧
    (discovered = [] → (start_scan_phase s discovered).1.current_phase = Phase.scan) ∧
    (start_scan_phase s discovered).2 =
      s.phase_callbacks.map (fun l =>
        ⟨l, (start_scan_phase s discovered).1.current_phase, discovered⟩) := by
  rcases discovered with _ | ⟨d, ds⟩ <;> simp [start_scan_phase]

/-- Witness for C5: a scan that saw no cars leaves the adapter in the
Scan phase even when it started from Control. -/
theorem scan_phase_transition_witness :
    (start_scan_phase ⟨Phase.control, [7]⟩ []).1.current_phase = Phase.scan :=
  (scan_phase_transition ⟨Phase.control, [7]⟩ []).2.1 rfl

/-- C2. Drive command translation: for `move ∈ {forward, backward,
stopped}`, `x ∈ [-100, 100]` and either boost value, the translation
passes `x` through unchanged, maps the move to `drive_y ∈ {50, -50, 0}`,
sets `speed = 100` when boost else `50`/`0`, sets `decay = 1` iff boost,
and `set_drive` then issues exactly those values as BLE writes in the
fixed order Dir X, Dir Y, Dir Speed, Decay. -/
theorem drive_translation (m : String)
    (hm : m = "forward" ∨ m = "backward" ∨ m = "stopped")
    (x : Int) (hx1 : -100 ≤ x) (hx2 : x ≤ 100) (boost : Bool) :
    translate_move_to_drive_params (some m) x boost =
      (x,
        if m = "forward" then 50 else if m = "backward" then -50 else 0,
        if boost then 100 else if m = "stopped" then 0 else 50,
        if boost then 1 else 0) ∧
    set_drive x
        (if m = "forward" then 50 else if m = "backward" then -50 else 0)
        (if boost then 100 else if m = "stopped" then 0 else 50)
        (if boost then 1 else 0) =
      [(DriveChar.dirX, x),
       (DriveChar.dirY, if m = "forward" then 50 else if m = "backward" then -50 else 0),
       (DriveChar.dirSpeed, if boost then 100 else if m = "stopped" then 0 else 50),
       (DriveChar.decayMode, if boost then 1 else 0)] := by
  rcases hm with rfl | rfl | rfl <;> cases boost <;>
    simp [translate_move_to_drive_params, set_drive, clamp, write_i8_value] <;>
    omega

/-- Witness for C2 at the spec's literal example: `move=forward, x=-30,
boost=true` translates to `(-30, 50, 100, 1)` and writes X=-30, Y=50,
Speed=100, Decay=1, in that order. -/
theorem drive_translation_witness :
    translate_move_to_drive_params (some "forward") (-30) true = (-30, 50, 100, 1) ∧
    set_drive (-30) 50 100 1 =
      [(DriveChar.dirX, -30), (DriveChar.dirY, 50),
       (DriveChar.dirSpeed, 100), (DriveChar.decayMode, 1)] := by
  have h := drive_translation "forward" (Or.inl rfl) (-30) (by norm_num) (by norm_num)
    true
  constructor
  · simpa using h.1
  · simpa using h.2

/-- C6. Steering bound enforcement: an integral `x` with `|x| > 100`
makes `handle_move_car` return an error reply with the registry unchanged
and no BLE task scheduled, while `|x| ≤ 100` (including ±100) is accepted:
every scheduled BLE task carries `x` unchanged, and on the full success
path (car found, ownership permits) the reply is a success whose car
snapshot holds `x`, the registry caches `x`, and the scheduled task (when
the event loop is available) carries `x`. -/
theorem steering_bound (loop : Bool) (cars : List Car) (ws : Option String)
    (car_id : Option Nat) (move : Option String) (x : Int) (boost : BoostVal) :
    ((x < -100 ∨ 100 < x) →
      (handle_move_car loop cars ws car_id move x boost).1.status = "error" ∧
      (handle_move_car loop cars ws car_id move x boost).2.1 = cars ∧
      (handle_move_car loop cars ws car_id move x boost).2.2 = []) ∧
    (-100 ≤ x → x ≤ 100 →
      (∀ t ∈ (handle_move_car loop cars ws car_id move x boost).2.2, t.x = x) ∧
      (∀ cid car, car_id = some cid → get_car cars cid = some car →
        ¬(ws.isSome ∧ car.websocket_id.isSome ∧ car.websocket_id ≠ ws) →
        (handle_move_car loop cars ws car_id move x boost).1.status = "success" ∧
        (handle_move_car loop cars ws car_id move x boost).1.car_status =
          some { car with move := move, x := x, boost := boostToBool boost } ∧
        get_car (handle_move_car loop cars ws car_id move x boost).2.1 cid =
          some { car with move := move, x := x, boost := boostToBool boost } ∧
        (handle_move_car loop cars ws car_id move x boost).2.2 =
          (if loop then
            [⟨{ car with move := move, x := x, boost := boostToBool boost },
              move, x, boostToBool boost⟩]
          else []))) := by
  constructor
  · intro hbad
    simp only [handle_move_car]
    rw [if_pos hbad]
    exact ⟨rfl, rfl, rfl⟩
  · intro h1 h2
    have hcond : ¬(x < -100 ∨ 100 < x) := by omega
    constructor
    · intro t ht
      rcases car_id with _ | cid
      · simp [handle_move_car, if_neg hcond] at ht
      · rcases hg : get_car cars cid with _ | car
        · simp [handle_move_car, if_neg hcond, hg] at ht
        · by_cases hown : ws.isSome ∧ car.websocket_id.isSome ∧ car.websocket_id ≠ ws
          · simp only [handle_move_car, if_neg hcond, hg, if_pos hown] at ht
            simp at ht
          · simp only [handle_move_car, if_neg hcond, hg, if_neg hown] at ht
            rcases loop with _ | _
            · simp at ht
            · simp only [if_true, List.mem_singleton] at ht
              rw [ht]
    · intro cid car hcid hg hown
      subst hcid
      simp only [handle_move_car, if_neg hcond, hg]
      rw [if_neg hown]
      refine ⟨rfl, rfl, ?_, rfl⟩
      rw [get_car_replaceFirst cars cid
        (fun c => { c with move := move, x := x, boost := boostToBool boost })
        (fun c => rfl), hg]
      rfl

/-- Witness for C6: with a one-car registry, `x = 101` is rejected and
`x = 100` is accepted. -/
theorem steering_bound_witness :
    (handle_move_car true [{ car_id := 2 }] (some "A") (some 2) (some "forward") 101
      (BoostVal.bstr "false")).1.status = "error" ∧
    (handle_move_car true [{ car_id := 2 }] (some "A") (some 2) (some "forward") 100
      (BoostVal.bstr "false")).1.status = "success" :=
  ⟨((steering_bound true [{ car_id := 2 }] (some "A") (some 2) (some "forward") 101
      (BoostVal.bstr "false")).1 (by norm_num)).1,
   (((steering_bound true [{ car_id := 2 }] (some "A") (some 2) (some "forward") 100
      (BoostVal.bstr "false")).2 (by norm_num) (by norm_num)).2 2 { car_id := 2 }
      rfl (by decide) (by decide)).1⟩

/-! ## Substring-scan lemmas for the car-id derivation -/

theorem isPrefixOf_append_self (pat r : List Char) :
    pat.isPrefixOf (pat ++ r) = true := by
  induction pat with
  | nil => simp [List.isPrefixOf]
  | cons p ps ih => simp [List.isPrefixOf, ih]

theorem containsSub_append_self (p : Char) (ps rest : List Char) :
    containsSub (p :: ps) ((p :: ps) ++ rest) = true := by
  simp only [List.cons_append, containsSub, Bool.or_eq_true]
  exact Or.inl (isPrefixOf_append_self (p :: ps) rest)

theorem removeAllSub_of_not_contains (pat l : List Char)
    (h : containsSub pat l = false) : removeAllSub pat l = l := by
  induction l with
  | nil => rfl
  | cons c tl ih =>
      simp only [containsSub, Bool.or_eq_false_iff] at h
      simp only [removeAllSub, removeAllSubAux] at ih ⊢
      rw [if_neg (by simp [h.1])]
      rw [ih h.2]

theorem removeAllSubAux_skip (pat xs rest : List Char) :
    removeAllSubAux pat xs.length (xs ++ rest) = removeAllSubAux pat 0 rest := by
  induction xs with
  | nil => rfl
  | cons y ys ih =>
      simp only [List.length_cons, List.cons_append, removeAllSubAux]
      exact ih

theorem removeAllSub_append_self (p : Char) (ps rest : List Char) :
    removeAllSub (p :: ps) ((p :: ps) ++ rest) = removeAllSub (p :: ps) rest := by
  simp only [removeAllSub, List.cons_append, removeAllSubAux]
  rw [if_pos ⟨by simp [isPrefixOf_append_self (p :: ps) rest], by simp⟩]
  simpa using removeAllSubAux_skip (p :: ps) ps rest

/-- C4 (amended). Car id derivation: for `ble_name = "RL-CAR-" ++ mac`
(with no further occurrence of the marker inside `mac`), the derived
`car_id` is the value of the last 4 characters of the colon-stripped
`mac` parsed as hex, falling back to `hash(ble_name) % 10000` when that
parse fails; when the hex parse succeeds the result does not depend on
the (per-process randomized) string hash, so repeated derivation is
stable; and the concrete name `RL-CAR-cc:ba:97:0d:8c:b5` derives
`car_id = 36021` (`0x8cb5`), not the 35765 the spec's example states. -/
theorem car_id_derivation (hash : List Char → Nat) (mac : List Char)
    (hmac : containsSub rlCarPrefix mac = false) :
    (generate_car_id_from_ble_name hash (rlCarPrefix ++ mac) =
      match parseHexDigits
          ((mac.filter (fun c => c ≠ ':')).drop
            ((mac.filter (fun c => c ≠ ':')).length - 4)) with
      | some v => v
      | none => hash (rlCarPrefix ++ mac) % 10000) ∧
    (∀ hash' v,
      parseHexDigits
          ((mac.filter (fun c => c ≠ ':')).drop
            ((mac.filter (fun c => c ≠ ':')).length - 4)) = some v →
      generate_car_id_from_ble_name hash (rlCarPrefix ++ mac) =
        generate_car_id_from_ble_name hash' (rlCarPrefix ++ mac)) ∧
    (∀ h, generate_car_id_from_ble_name h "RL-CAR-cc:ba:97:0d:8c:b5".data = 36021) := by
  have hmain : generate_car_id_from_ble_name hash (rlCarPrefix ++ mac) =
      match parseHexDigits
          ((mac.filter (fun c => c ≠ ':')).drop
            ((mac.filter (fun c => c ≠ ':')).length - 4)) with
      | some v => v
      | none => hash (rlCarPrefix ++ mac) % 10000 := by
    have hc : containsSub rlCarPrefix (rlCarPrefix ++ mac) = true :=
      containsSub_append_self 'R' ['L', '-', 'C', 'A', 'R', '-'] mac
    have hr : removeAllSub rlCarPrefix (rlCarPrefix ++ mac) = removeAllSub rlCarPrefix mac :=
      removeAllSub_append_self 'R' ['L', '-', 'C', 'A', 'R', '-'] mac
    simp only [generate_car_id_from_ble_name]
    rw [if_pos hc, hr, removeAllSub_of_not_contains rlCarPrefix mac hmac]
  refine ⟨hmain, ?_, fun h => rfl⟩
  intro hash' v hv
  have hmain' : generate_car_id_from_ble_name hash' (rlCarPrefix ++ mac) =
      match parseHexDigits
          ((mac.filter (fun c => c ≠ ':')).drop
            ((mac.filter (fun c => c ≠ ':')).length - 4)) with
      | some v => v
      | none => hash' (rlCarPrefix ++ mac) % 10000 := by
    have hc : containsSub rlCarPrefix (rlCarPrefix ++ mac) = true :=
      containsSub_append_self 'R' ['L', '-', 'C', 'A', 'R', '-'] mac
    have hr : removeAllSub rlCarPrefix (rlCarPrefix ++ mac) = removeAllSub rlCarPrefix mac :=
      removeAllSub_append_self 'R' ['L', '-', 'C', 'A', 'R', '-'] mac
    simp only [generate_car_id_from_ble_name]
    rw [if_pos hc, hr, removeAllSub_of_not_contains rlCarPrefix mac hmac]
  rw [hmain, hmain', hv]

/-- Counterexample for C4 as stated: the code derives 36021 (`0x8cb5`) for
`RL-CAR-cc:ba:97:0d:8c:b5`, not 35765 — the spec's example value 35765
does not match its own rule, since the last-4 hex `8cb5` has integer
value 36021. -/
theorem car_id_derivation_counterexample :
    generate_car_id_from_ble_name (fun _ => 0) "RL-CAR-cc:ba:97:0d:8c:b5".data = 36021 ∧
    generate_car_id_from_ble_name (fun _ => 0) "RL-CAR-cc:ba:97:0d:8c:b5".data ≠ 35765 := by
  decide

/-- Witness for C4 at the concrete MAC: the derivation equation yields
the hex value of `8cb5`. -/
theorem car_id_derivation_witness :
    generate_car_id_from_ble_name (fun _ => 0)
      (rlCarPrefix ++ "cc:ba:97:0d:8c:b5".data) = 36021 := by
  have h := car_id_derivation (fun _ => 0) "cc:ba:97:0d:8c:b5".data (by decide)
  rw [h.1]
  decide

/-! ## UTF-8 decoder step lemmas -/

theorem dec_nil (need acc lo hi : Nat) :
    decodeUtf8IgnoreAux need acc lo hi [] = [] := by
  cases need <;> simp [decodeUtf8IgnoreAux]

theorem dec_start_ascii (acc lo hi b : Nat) (tl : List Nat) (hb : b < 0x80) :
    decodeUtf8IgnoreAux 0 acc lo hi (b :: tl) =
      b :: decodeUtf8IgnoreAux 0 0 0 0 tl := by
  simp only [decodeUtf8IgnoreAux]
  split_ifs
  rfl

theorem dec_start_2 (acc lo hi b : Nat) (tl : List Nat)
    (hb : 0xC2 ≤ b ∧ b ≤ 0xDF) :
    decodeUtf8IgnoreAux 0 acc lo hi (b :: tl) =
      decodeUtf8IgnoreAux 1 (b - 0xC0) 0x80 0xBF tl := by
  simp only [decodeUtf8IgnoreAux]
  split_ifs <;> first | rfl | omega

theorem dec_start_E0 (acc lo hi : Nat) (tl : List Nat) :
    decodeUtf8IgnoreAux 0 acc lo hi (0xE0 :: tl) =
      decodeUtf8IgnoreAux 2 0 0xA0 0xBF tl := by
  simp only [decodeUtf8IgnoreAux]
  split_ifs <;> first | rfl | omega

theorem dec_start_ED (acc lo hi : Nat) (tl : List Nat) :
    decodeUtf8IgnoreAux 0 acc lo hi (0xED :: tl) =
      decodeUtf8IgnoreAux 2 13 0x80 0x9F tl := by
  simp only [decodeUtf8IgnoreAux]
  split_ifs <;> first | rfl | omega

theorem dec_start_3 (acc lo hi b : Nat) (tl : List Nat)
    (hb : 0xE0 < b ∧ b ≤ 0xEF ∧ b ≠ 0xED) :
    decodeUtf8IgnoreAux 0 acc lo hi (b :: tl) =
      decodeUtf8IgnoreAux 2 (b - 0xE0) 0x80 0xBF tl := by
  simp only [decodeUtf8IgnoreAux]
  split_ifs <;> first | omega | rfl

theorem dec_start_F0 (acc lo hi : Nat) (tl : List Nat) :
    decodeUtf8IgnoreAux 0 acc lo hi (0xF0 :: tl) =
      decodeUtf8IgnoreAux 3 0 0x90 0xBF tl := by
  simp only [decodeUtf8IgnoreAux]
  split_ifs <;> first | rfl | omega

theorem dec_start_4 (acc lo hi b : Nat) (tl : List Nat)
    (hb : 0xF0 < b ∧ b ≤ 0xF3) :
    decodeUtf8IgnoreAux 0 acc lo hi (b :: tl) =
      decodeUtf8IgnoreAux 3 (b - 0xF0) 0x80 0xBF tl := by
  simp only [decodeUtf8IgnoreAux]
  split_ifs <;> first | omega | rfl

theorem dec_start_F4 (acc lo hi : Nat) (tl : List Nat) :
    decodeUtf8IgnoreAux 0 acc lo hi (0xF4 :: tl) =
      decodeUtf8IgnoreAux 3 4 0x80 0x8F tl := by
  simp only [decodeUtf8IgnoreAux]
  split_ifs <;> first | rfl | omega

theorem dec_cont_last (acc lo hi b : Nat) (tl : List Nat)
    (hb : lo ≤ b ∧ b ≤ hi) :
    decodeUtf8IgnoreAux 1 acc lo hi (b :: tl) =
      (acc * 64 + (b - 0x80)) :: decodeUtf8IgnoreAux 0 0 0 0 tl := by
  simp only [decodeUtf8IgnoreAux]
  split_ifs
  rfl

theorem dec_cont_mid (need acc lo hi b : Nat) (tl : List Nat)
    (hb : lo ≤ b ∧ b ≤ hi) :
    decodeUtf8IgnoreAux (need + 2) acc lo hi (b :: tl) =
      decodeUtf8IgnoreAux (need + 1) (acc * 64 + (b - 0x80)) 0x80 0xBF tl := by
  simp only [decodeUtf8IgnoreAux]
  rw [if_pos hb]
  simp

set_option maxRecDepth 16000 in
/-- One valid scalar decodes back from its UTF-8 encoding, leaving the
rest of the stream to the decoder. -/
theorem decode_encode (n : Nat) (hval : ValidScalar n) (rest : List Nat) :
    decodeUtf8IgnoreAux 0 0 0 0 (encodeUtf8Cp n ++ rest) =
      n :: decodeUtf8IgnoreAux 0 0 0 0 rest := by
  obtain ⟨hlt, hsur⟩ := hval
  by_cases h1 : n < 0x80
  · simp only [encodeUtf8Cp, if_pos h1, List.cons_append, List.nil_append]
    rw [dec_start_ascii _ _ _ _ _ h1]
  · by_cases h2 : n < 0x800
    · simp only [encodeUtf8Cp, if_neg h1, if_pos h2, List.cons_append, List.nil_append]
      rw [dec_start_2 _ _ _ _ _ (by omega), dec_cont_last _ _ _ _ _ (by omega)]
      congr 1
      omega
    · by_cases h3 : n < 0x10000
      · simp only [encodeUtf8Cp, if_neg h1, if_neg h2, if_pos h3, List.cons_append,
          List.nil_append]
        by_cases hE0 : n < 0x1000
        · rw [show 0xE0 + n / 4096 = 0xE0 by omega, dec_start_E0,
            dec_cont_mid _ _ _ _ _ _ (by omega), dec_cont_last _ _ _ _ _ (by omega)]
          congr 1
          omega
        · by_cases hED : n / 4096 = 13
          · have hn : n < 0xD800 := by omega
            rw [show 0xE0 + n / 4096 = 0xED by omega, dec_start_ED,
              dec_cont_mid _ _ _ _ _ _ (by omega), dec_cont_last _ _ _ _ _ (by omega)]
            congr 1
            omega
          · rw [dec_start_3 _ _ _ _ _ (by omega),
              dec_cont_mid _ _ _ _ _ _ (by omega), dec_cont_last _ _ _ _ _ (by omega)]
            congr 1
            omega
      · simp only [encodeUtf8Cp, if_neg h1, if_neg h2, if_neg h3, List.cons_append,
          List.nil_append]
        by_cases hF0 : n < 0x40000
        · rw [show 0xF0 + n / 262144 = 0xF0 by omega, dec_start_F0,
            dec_cont_mid _ _ _ _ _ _ (by omega), dec_cont_mid _ _ _ _ _ _ (by omega),
            dec_cont_last _ _ _ _ _ (by omega)]
          congr 1
          omega
        · by_cases hF4 : 0x100000 ≤ n
          · rw [show 0xF0 + n / 262144 = 0xF4 by omega, dec_start_F4,
              dec_cont_mid _ _ _ _ _ _ (by omega), dec_cont_mid _ _ _ _ _ _ (by omega),
              dec_cont_last _ _ _ _ _ (by omega)]
            congr 1
            omega
          · rw [dec_start_4 _ _ _ _ _ (by omega),
              dec_cont_mid _ _ _ _ _ _ (by omega), dec_cont_mid _ _ _ _ _ _ (by omega),
              dec_cont_last _ _ _ _ _ (by omega)]
            congr 1
            omega

theorem dec_start_invalid (acc lo hi b : Nat) (tl : List Nat)
    (hb : (0x80 ≤ b ∧ b < 0xC2) ∨ 0xF4 < b) :
    decodeUtf8IgnoreAux 0 acc lo hi (b :: tl) = decodeUtf8IgnoreAux 0 0 0 0 tl := by
  simp only [decodeUtf8IgnoreAux]
  split_ifs <;> first | rfl | omega

/-- C8 (amended). String codec decode: `read_string` interprets the
characteristic bytes as UTF-8 with no terminator; valid UTF-8 decodes to
exactly its text, and malformed UTF-8 sequences are dropped from the
decoded text (`errors="ignore"`), not substituted by the replacement
character. -/
theorem string_codec_decode (cps : List Nat) (h : ∀ n ∈ cps, ValidScalar n) :
    read_string_decode ((cps.map encodeUtf8Cp).flatten) = cps := by
  induction cps with
  | nil =>
      simp only [List.map_nil, List.flatten_nil, read_string_decode]
      exact dec_nil 0 0 0 0
  | cons n ns ih =>
      simp only [List.map_cons, List.flatten_cons, read_string_decode]
      rw [decode_encode n (h n (by simp)) ((ns.map encodeUtf8Cp).flatten)]
      exact congrArg (fun l => n :: l)
        (ih (fun m hm => h m (List.mem_cons_of_mem n hm)))

/-- Witness for C8: the two-character ASCII text `hi` round-trips through
encode and decode. -/
theorem string_codec_decode_witness :
    read_string_decode (([104, 105].map encodeUtf8Cp).flatten) = [104, 105] :=
  string_codec_decode [104, 105] (by
    intro n hn
    rcases List.mem_cons.1 hn with rfl | hn
    · exact ⟨by norm_num, by omega⟩
    · rcases List.mem_cons.1 hn with rfl | hn
      · exact ⟨by norm_num, by omega⟩
      · simp at hn)

/-- Counterexample for C8 as stated: the malformed byte `0xFF` decodes to
the empty text (the byte is ignored), not to the replacement character
U+FFFD that the claim requires. -/
theorem string_codec_replacement_counterexample :
    read_string_decode [0xFF] = [] ∧ read_string_decode [0xFF] ≠ [0xFFFD] := by
  have h : read_string_decode [0xFF] = [] := by
    simp only [read_string_decode]
    rw [dec_start_invalid _ _ _ _ _ (Or.inr (by norm_num)), dec_nil]
  exact ⟨h, by rw [h]; simp⟩

/-! ## Team-membership uniqueness -/

theorem forall2_mem_right {α : Type} {S : α → α → Prop} {l l' : List α}
    (h : List.Forall₂ S l l') {b' : α} (hb' : b' ∈ l') : ∃ b ∈ l, S b b' := by
  induction h with
  | nil => simp at hb'
  | cons hS hF ih =>
      rcases List.mem_cons.1 hb' with rfl | hb'
      · exact ⟨_, by simp, hS⟩
      · obtain ⟨b, hb, hSb⟩ := ih hb'
        exact ⟨b, by simp [hb], hSb⟩

/-- Transfer a `Pairwise` property along a pointwise relation between two
lists. -/
theorem pairwise_of_forall2 {α : Type} {S : α → α → Prop} {R Q : α → α → Prop}
    {l l' : List α} (hF : List.Forall₂ S l l') (hp : l.Pairwise R)
    (himp : ∀ a a' b b', a ∈ l → b ∈ l → S a a' → S b b' → R a b → Q a' b') :
    l'.Pairwise Q := by
  induction hF with
  | nil => exact List.Pairwise.nil
  | @cons a a' l₂ l₂' hS hF ih =>
      rcases hp with _ | ⟨hhead, htail⟩
      refine List.Pairwise.cons ?_ ?_
      · intro b' hb'
        obtain ⟨b, hb, hSb⟩ := forall2_mem_right hF hb'
        exact himp a a' b b' (by simp) (by simp [hb]) hS hSb (hhead b hb)
      · exact ih htail (fun x x' y y' hx hy => himp x x' y y'
          (by simp [hx]) (by simp [hy]))

theorem color_addCar (t : Team) (cid : Nat) : (t.addCar cid).color = t.color := by
  simp only [Team.addCar]
  split <;> rfl

theorem mem_addCar {t : Team} {cid c : Nat} (h : c ∈ (t.addCar cid).car_ids) :
    c ∈ t.car_ids ∨ c = cid := by
  simp only [Team.addCar] at h
  split at h
  · exact Or.inl h
  · simpa using h

theorem nodup_addCar (t : Team) (cid : Nat) (h : t.car_ids.Nodup) :
    (t.addCar cid).car_ids.Nodup := by
  simp only [Team.addCar]
  split
  · exact h
  · next hmem =>
      simp only [List.nodup_append, List.nodup_cons, List.nodup_nil]
      refine ⟨h, by simp, ?_⟩
      intro a ha hae
      simp only [List.mem_cons, List.not_mem_nil, or_false] at hae
      subst hae
      exact hmem ha

theorem removeCar_no_mem {t : Team} {cid : Nat} (h : t.car_ids.Nodup) :
    cid ∉ (t.removeCar cid).car_ids := by
  simp only [Team.removeCar]
  intro hmem
  exact absurd rfl (h.mem_erase_iff.1 hmem).1

/-- Each team-membership operation preserves the `teams` dict
well-formedness. -/
theorem teamsWF_gameStep (t : List (String × Team)) (op : GameOp) (h : TeamsWF t) :
    TeamsWF (gameStep t op) := by
  obtain ⟨hmem, hpw⟩ := h
  cases op with
  | addTeam color name =>
      simp only [gameStep, add_team, dictSetTeam]
      by_cases hany : t.any (fun kt => kt.1 == color)
      · rw [if_pos hany]
        constructor
        · intro kt' hkt'
          obtain ⟨kt, hkt, hS⟩ := forall2_mem_right (forall2_replaceFirst _ _ t) hkt'
          rcases hS with heq | ⟨_, heq, _⟩
          · subst heq
            exact hmem _ hkt
          · subst heq
            exact ⟨rfl, by simp [mkTeam]⟩
        · refine pairwise_of_forall2 (forall2_replaceFirst _ _ t) hpw ?_
          intro a a' b b' _ _ hSa hSb hR
          rcases hSa with heqa | ⟨hpa, heqa, hfa⟩
          · rcases hSb with heqb | ⟨hpb, heqb, _⟩
            · subst heqa
              subst heqb
              exact hR
            · subst heqa
              subst heqb
              have hbc : b.1 = color := by simpa using hpb
              exact ⟨by rw [← hbc]; exact hR.1, fun cid _ => by simp [mkTeam]⟩
          · rcases hSb with heqb | ⟨hpb, heqb, hfb⟩
            · subst heqa
              subst heqb
              have hac : a.1 = color := by simpa using hpa
              exact ⟨by rw [← hac]; exact hR.1, fun cid hcid => by simp [mkTeam] at hcid⟩
            · rw [hfa] at hfb
              cases Option.some_injective _ hfb
              exact absurd rfl hR.1
      · rw [if_neg hany]
        have hne : ∀ kt ∈ t, kt.1 ≠ color := by
          intro kt hkt hEq
          exact hany (List.any_eq_true.2 ⟨kt, hkt, by simp [hEq]⟩)
        constructor
        · intro kt' hkt'
          rcases List.mem_append.1 hkt' with hkt' | hkt'
          · exact hmem kt' hkt'
          · simp only [List.mem_singleton] at hkt'
            subst hkt'
            exact ⟨rfl, by simp [mkTeam]⟩
        · rw [List.pairwise_append]
          refine ⟨hpw, by simp, ?_⟩
          intro a ha b hb
          simp only [List.mem_singleton] at hb
          subst hb
          exact ⟨hne a ha, fun cid _ => by simp [mkTeam]⟩
  | removeCarFromTeams cid =>
      simp only [gameStep, remove_car_from_teams]
      constructor
      · intro kt' hkt'
        obtain ⟨kt, hkt, rfl⟩ := List.mem_map.1 hkt'
        refine ⟨?_, ?_⟩
        · simpa [Team.removeCar] using (hmem kt hkt).1
        · simpa [Team.removeCar] using ((hmem kt hkt).2.erase cid)
      · refine pairwise_of_forall2
          (forall2_map_self (fun x y => y = (x.1, x.2.removeCar cid))
            (fun kt => (kt.1, kt.2.removeCar cid)) t (fun x _ => rfl)) hpw ?_
        intro a a' b b' _ _ hSa hSb hR
        subst hSa
        subst hSb
        refine ⟨hR.1, ?_⟩
        intro c hc hcb
        simp only [Team.removeCar] at hc hcb
        exact hR.2 c (List.mem_of_mem_erase hc) (List.mem_of_mem_erase hcb)
  | addCarToTeam cid tc =>
      simp only [gameStep, add_car_to_team]
      rcases hgt : get_team t tc with _ | team
      · exact ⟨hmem, hpw⟩
      · have hA := forall2_map_self
          (fun x y => y = if x.2.color ≠ tc then (x.1, x.2.removeCar cid) else x)
          (fun kt => if kt.2.color ≠ tc then (kt.1, kt.2.removeCar cid) else kt)
          t (fun x _ => rfl)
        have hmemA : ∀ kt' ∈ t.map
            (fun kt => if kt.2.color ≠ tc then (kt.1, kt.2.removeCar cid) else kt),
            (kt'.2.color = kt'.1 ∧ kt'.2.car_ids.Nodup) ∧
            (kt'.2.color ≠ tc → cid ∉ kt'.2.car_ids) := by
          intro kt' hkt'
          obtain ⟨kt, hkt, rfl⟩ := List.mem_map.1 hkt'
          by_cases hc : kt.2.color ≠ tc
          · rw [if_pos hc]
            refine ⟨⟨?_, ?_⟩, ?_⟩
            · simpa [Team.removeCar] using (hmem kt hkt).1
            · simpa [Team.removeCar] using ((hmem kt hkt).2.erase cid)
            · intro _
              exact removeCar_no_mem (hmem kt hkt).2
          · rw [if_neg hc]
            push_neg at hc
            exact ⟨hmem kt hkt, fun hcc => absurd hc hcc⟩
        have hpwA : (t.map
            (fun kt => if kt.2.color ≠ tc then (kt.1, kt.2.removeCar cid) else kt)).Pairwise
            (fun a b => a.1 ≠ b.1 ∧ ∀ c, c ∈ a.2.car_ids → c ∉ b.2.car_ids) := by
          refine pairwise_of_forall2 hA hpw ?_
          intro a a' b b' _ _ hSa hSb hR
          subst hSa
          subst hSb
          have key : ∀ x : String × Team,
              (if x.2.color ≠ tc then (x.1, x.2.removeCar cid) else x).1 = x.1 := by
            intro x
            by_cases hc : x.2.color ≠ tc
            · rw [if_pos hc]
            · rw [if_neg hc]
          have mem_sub : ∀ (x : String × Team) (c : Nat),
              c ∈ (if x.2.color ≠ tc then (x.1, x.2.removeCar cid) else x).2.car_ids →
              c ∈ x.2.car_ids := by
            intro x c hcx
            by_cases hc : x.2.color ≠ tc
            · rw [if_pos hc] at hcx
              simp only [Team.removeCar] at hcx
              exact List.mem_of_mem_erase hcx
            · rw [if_neg hc] at hcx
              exact hcx
          refine ⟨by rw [key a, key b]; exact hR.1, ?_⟩
          intro c hc hcb
          exact hR.2 c (mem_sub a c hc) (mem_sub b c hcb)
        constructor
        · intro kt' hkt'
          obtain ⟨kt, hkt, hS⟩ := forall2_mem_right (forall2_replaceFirst _ _ _) hkt'
          rcases hS with heq | ⟨_, heq, _⟩
          · subst heq
            exact (hmemA _ hkt).1
          · subst heq
            refine ⟨?_, nodup_addCar _ _ (hmemA _ hkt).1.2⟩
            rw [color_addCar]
            exact (hmemA _ hkt).1.1
        · refine pairwise_of_forall2 (forall2_replaceFirst _ _ _) hpwA ?_
          intro a a' b b' ha hb hSa hSb hR
          rcases hSa with heqa | ⟨hpa, heqa, hfa⟩
          · rcases hSb with heqb | ⟨hpb, heqb, _⟩
            · subst heqa
              subst heqb
              exact hR
            · subst heqa
              subst heqb
              have hbk : b.1 = tc := by simpa using hpb
              refine ⟨hR.1, ?_⟩
              intro c hc hcb
              rcases mem_addCar hcb with hcb' | rfl
              · exact hR.2 c hc hcb'
              · have hak : a'.1 ≠ tc := by rw [← hbk]; exact hR.1
                have hacol : a'.2.color = a'.1 := (hmemA _ ha).1.1
                exact (hmemA _ ha).2 (by rw [hacol]; exact hak) hc
          · rcases hSb with heqb | ⟨hpb, heqb, hfb⟩
            · subst heqa
              subst heqb
              have hak : a.1 = tc := by simpa using hpa
              refine ⟨hR.1, ?_⟩
              intro c hc hcb
              rcases mem_addCar hc with hca | rfl
              · exact hR.2 c hca hcb
              · have hbk : b'.1 ≠ tc := by
                  intro hbtc
                  exact hR.1 (hak.trans hbtc.symm)
                have hbcol : b'.2.color = b'.1 := (hmemA _ hb).1.1
                exact (hmemA _ hb).2 (by rw [hbcol]; exact hbk) hcb
            · rw [hfa] at hfb
              cases Option.some_injective _ hfb
              exact absurd rfl hR.1

/-- The default red/blue dict is well-formed. -/
theorem teamsWF_init : TeamsWF initTeams := by
  constructor
  · intro kt hkt
    rcases List.mem_cons.1 hkt with rfl | hkt
    · exact ⟨rfl, by simp [mkTeam]⟩
    · rcases List.mem_cons.1 hkt with rfl | hkt
      · exact ⟨rfl, by simp [mkTeam]⟩
      · simp at hkt
  · refine List.Pairwise.cons ?_ (List.Pairwise.cons ?_ List.Pairwise.nil)
    · intro b hb
      rcases List.mem_cons.1 hb with rfl | hb
      · exact ⟨by decide, fun cid hcid => by simp [initTeams, add_team, dictSetTeam, mkTeam] at hcid⟩
      · simp [initTeams, add_team, dictSetTeam] at hb
    · intro b hb
      simp [initTeams, add_team, dictSetTeam] at hb

/-- Well-formedness is preserved by any operation sequence. -/
theorem teamsWF_run (ops : List GameOp) :
    ∀ t, TeamsWF t → TeamsWF (ops.foldl gameStep t) := by
  induction ops with
  | nil => intro t h; exact h
  | cons op ops ih =>
      intro t h
      exact ih _ (teamsWF_gameStep t op h)

/-- C10. Team membership uniqueness: after any sequence of
`add_car_to_team`, `remove_car_from_teams` and `add_team` operations on a
game, the car lists of the teams are pairwise disjoint — every `car_id`
belongs to at most one team (because `add_car_to_team` first removes the
car from every other team). -/
theorem team_membership_unique (ops : List GameOp) :
    (runGameOps ops).Pairwise
      (fun a b => ∀ cid, cid ∈ a.2.car_ids → cid ∉ b.2.car_ids) :=
  ((teamsWF_run ops initTeams teamsWF_init).2).imp (fun hab => hab.2)
